import Mathlib

/-!
Verification development for the LRU-cache repository
(`src/solutions/python/01-jq3/code/app/main.py`, the Stage 1 reference
solution). The Python program is embedded shallowly: the `LRUCache`
class becomes a structure with pure operations, the stdin command loop
becomes a function from a list of input lines to the list of response
lines, and an uncaught Python exception is modelled as `none`
(processing stops, nothing more is printed).
-/

/-- ASCII whitespace as recognized by Python `str.split()` / `str.strip()`
on the text lines this program reads (the Unicode cases never arise in
the protocol). -/
def isPySpace (c : Char) : Bool :=
  c == ' ' || c == '\t' || c == '\n' || c == '\r' || c == '\x0b' || c == '\x0c'

/-- Python `dict.get(key)` on an insertion-ordered association list
(the embedding of `self.cache`). -/
def dictGet : List (String × String) → String → Option String
  | [], _ => none
  | (k', v') :: rest, k => if k' = k then some v' else dictGet rest k

/-- Python `d[key] = value`: overwrite in place when the key is present
(keeping its position), otherwise append the new pair at the end —
exactly the insertion-order behaviour of a Python `dict`. -/
def dictInsert : List (String × String) → String → String → List (String × String)
  | [], k, v => [(k, v)]
  | (k', v') :: rest, k, v =>
    if k' = k then (k, v) :: rest else (k', v') :: dictInsert rest k v

/-- The `LRUCache` class of Stage 1: `self.capacity` (recorded, not
enforced — there is no eviction code in this stage) and `self.cache`,
a plain dict. -/
structure LRUCache where
  capacity : Int
  cache : List (String × String)
deriving Repr, DecidableEq

/-- `LRUCache.__init__`: store the capacity, start with an empty dict. -/
def LRUCache.init (capacity : Int) : LRUCache :=
  { capacity := capacity, cache := [] }

/-- `LRUCache.get`: `return self.cache.get(key)` — a pure lookup, the
cache state is not touched. -/
def LRUCache.get (c : LRUCache) (key : String) : Option String :=
  dictGet c.cache key

/-- `LRUCache.put`: `self.cache[key] = value` — insert or overwrite,
no eviction. -/
def LRUCache.put (c : LRUCache) (key value : String) : LRUCache :=
  { c with cache := dictInsert c.cache key value }

/-- `LRUCache.size`: `return len(self.cache)`. -/
def LRUCache.size (c : LRUCache) : Nat :=
  c.cache.length

/-- A cache-level operation, for stating properties over arbitrary
sequences of `put`/`get` calls. -/
inductive CacheOp where
  | put (key value : String)
  | get (key : String)
deriving Repr, DecidableEq

/-- Effect of one operation on the cache state. `get` returns a value
but (in this stage) performs no mutation at all, so its state effect is
the identity. -/
def applyOp (c : LRUCache) : CacheOp → LRUCache
  | .put k v => c.put k v
  | .get _ => c

/-- Run a sequence of operations on a cache. -/
def runOps (c : LRUCache) : List CacheOp → LRUCache
  | [] => c
  | op :: ops => runOps (applyOp c op) ops

/-- Keys that appear in a `put` somewhere in the operation list. -/
def putKeys : List CacheOp → List String
  | [] => []
  | .put k _ :: rest => k :: putKeys rest
  | .get _ :: rest => putKeys rest

/-- Number of `put` operations in the list. -/
def countPuts : List CacheOp → Nat
  | [] => 0
  | .put _ _ :: rest => countPuts rest + 1
  | .get _ :: rest => countPuts rest

/-! Embedding of the command layer (`main`): Python string splitting,
`int()` parsing, command dispatch and the stdin loop. -/

/-- Drop the leading run of whitespace (the separator-skipping step of
Python whitespace `split`, and the front half of `strip`). -/
def dropSpaces : List Char → List Char
  | [] => []
  | c :: cs => if isPySpace c then dropSpaces cs else c :: cs

/-- Split off the leading maximal run of non-whitespace characters:
returns the token and the untouched remainder. -/
def takeNonSpace : List Char → List Char × List Char
  | [] => ([], [])
  | c :: cs =>
    if isPySpace c then ([], c :: cs)
    else
      let p := takeNonSpace cs
      (c :: p.1, p.2)

/-- Python `s.split(maxsplit=n)` with whitespace separators, on the
character list: at most `n` splits are performed; afterwards the
remainder (leading whitespace consumed) is kept verbatim as the final
element if non-empty. -/
def pySplitAux : Nat → List Char → List (List Char)
  | 0, cs =>
    match dropSpaces cs with
    | [] => []
    | c :: cs' => [c :: cs']
  | n + 1, cs =>
    match dropSpaces cs with
    | [] => []
    | c :: cs' =>
      let p := takeNonSpace (c :: cs')
      p.1 :: pySplitAux n p.2

/-- `line.split(maxsplit=2)` as used by `main`. -/
def pySplitMax2 (s : String) : List String :=
  (pySplitAux 2 s.data).map String.mk

/-- Remove leading and trailing whitespace from a character list
(`str.strip()`). -/
def stripList (l : List Char) : List Char :=
  (dropSpaces (dropSpaces l).reverse).reverse

/-- Python `line.strip()`. -/
def pyStrip (s : String) : String :=
  String.mk (stripList s.data)

/-- Digit-run parser for Python `int()`: decimal digits with single
underscores allowed only between digits (`1_0` is valid, `_1`, `1_`,
`1__0` are not). -/
def pyDigitsRest (acc : Nat) : List Char → Option Nat
  | [] => some acc
  | c :: cs =>
    if c.isDigit then pyDigitsRest (acc * 10 + (c.toNat - 48)) cs
    else if c = '_' then
      match cs with
      | [] => none
      | d :: ds =>
        if d.isDigit then pyDigitsRest (acc * 10 + (d.toNat - 48)) ds else none
    else none

/-- A non-empty digit run (first character must be a digit). -/
def pyDigits : List Char → Option Nat
  | [] => none
  | c :: cs => if c.isDigit then pyDigitsRest (c.toNat - 48) cs else none

/-- Python `int(s)` on a whitespace-free token: optional sign followed
by digits; `none` models the `ValueError` raised on anything else. -/
def pyParseInt (s : String) : Option Int :=
  match s.data with
  | '+' :: rest => (pyDigits rest).map Int.ofNat
  | '-' :: rest => (pyDigits rest).map fun n => -(Int.ofNat n)
  | l => (pyDigits l).map Int.ofNat

/-- Command dispatch on the split parts of a stripped, non-empty line.
`none` models an uncaught exception killing the process: `parts[1]`
missing on `INIT` (IndexError) or `int(parts[1])` failing (ValueError).
Every other path answers with a response line and continues. -/
def dispatch (st : Option LRUCache) : List String → Option (Option LRUCache × List String)
  | [] => none
  | command :: rest =>
    if command = "INIT" then
      match rest with
      | [] => none
      | capStr :: _ =>
        match pyParseInt capStr with
        | none => none
        | some capacity => some (some (LRUCache.init capacity), ["OK"])
    else if command = "PUT" then
      match st with
      | none => some (none, ["ERROR: Cache not initialized"])
      | some cache =>
        match rest with
        | key :: value :: _ => some (some (cache.put key value), ["OK"])
        | _ => some (st, ["ERROR: PUT requires key and value"])
    else if command = "GET" then
      match st with
      | none => some (none, ["ERROR: Cache not initialized"])
      | some cache =>
        match rest with
        | key :: _ =>
          some (st, [match cache.get key with
                     | some v => v
                     | none => "NULL"])
        | [] => some (st, ["ERROR: GET requires key"])
    else if command = "SIZE" then
      match st with
      | none => some (none, ["ERROR: Cache not initialized"])
      | some cache => some (st, [toString cache.size])
    else
      some (st, ["ERROR: Unknown command: " ++ command])

/-- Processing of one raw input line: strip, skip if blank, otherwise
split with `maxsplit=2` and dispatch. -/
def processLine (st : Option LRUCache) (line : String) :
    Option (Option LRUCache × List String) :=
  let stripped := pyStrip line
  if stripped = "" then some (st, [])
  else dispatch st (pySplitMax2 stripped)

/-- The stdin loop of `main`: consume lines in order, collecting the
printed responses; an uncaught exception (`none`) stops the process,
so later lines produce no output. -/
def runLines (st : Option LRUCache) : List String → List String
  | [] => []
  | l :: ls =>
    match processLine st l with
    | none => []
    | some (st', out) => out ++ runLines st' ls

/-- The command token of a raw line: first element of the stripped,
whitespace-split line (what `parts[0]` would be), if any. -/
def firstToken (line : String) : Option String :=
  (pySplitMax2 (pyStrip line)).head?

/-! Association-list lemmas about the embedded Python dict. -/

theorem dictGet_insert_self (m : List (String × String)) (k v : String) :
    dictGet (dictInsert m k v) k = some v := by
  induction m with
  | nil => simp [dictInsert, dictGet]
  | cons p rest ih =>
    obtain ⟨k', v'⟩ := p
    by_cases h : k' = k
    · simp [dictInsert, h, dictGet]
    · simp [dictInsert, h, dictGet, ih]

theorem dictGet_insert_ne (m : List (String × String)) (k k' v : String)
    (h : k ≠ k') : dictGet (dictInsert m k' v) k = dictGet m k := by
  induction m with
  | nil => simp [dictInsert, dictGet, (Ne.symm h)]
  | cons p rest ih =>
    obtain ⟨a, b⟩ := p
    by_cases ha : a = k'
    · subst ha
      simp [dictInsert, dictGet, (Ne.symm h)]
    · by_cases hk : a = k
      · subst hk
        simp [dictInsert, ha, dictGet]
      · simp [dictInsert, ha, dictGet, hk, ih]

theorem dictInsert_length_le (m : List (String × String)) (k v : String) :
    (dictInsert m k v).length ≤ m.length + 1 := by
  induction m with
  | nil => simp [dictInsert]
  | cons p rest ih =>
    obtain ⟨k', v'⟩ := p
    by_cases h : k' = k
    · simp [dictInsert, h]
    · simp [dictInsert, h]
      omega

theorem dictInsert_length_of_get (m : List (String × String)) (k v v1 : String)
    (h : dictGet m k = some v1) : (dictInsert m k v).length = m.length := by
  induction m with
  | nil => simp [dictGet] at h
  | cons p rest ih =>
    obtain ⟨k', v'⟩ := p
    by_cases hk : k' = k
    · simp [dictInsert, hk]
    · simp [dictGet, hk] at h
      simp [dictInsert, hk, ih h]

/-! Lemmas about running operation sequences. -/

theorem runOps_append (c : LRUCache) (l1 l2 : List CacheOp) :
    runOps c (l1 ++ l2) = runOps (runOps c l1) l2 := by
  induction l1 generalizing c with
  | nil => rfl
  | cons op ops ih => simp [runOps, ih]

theorem runOps_get_of_notPutKey (ops : List CacheOp) (c : LRUCache) (k : String)
    (h : k ∉ putKeys ops) : (runOps c ops).get k = c.get k := by
  induction ops generalizing c with
  | nil => rfl
  | cons op ops ih =>
    cases op with
    | put k' v' =>
      simp only [putKeys, List.mem_cons, not_or] at h
      have : (c.put k' v').get k = c.get k := by
        simp [LRUCache.put, LRUCache.get, dictGet_insert_ne _ _ _ _ h.1]
      simp [runOps, applyOp, ih _ h.2, this]
    | get k' =>
      simp only [putKeys] at h
      simp [runOps, applyOp, ih _ h]

theorem runOps_size_le (ops : List CacheOp) (c : LRUCache) :
    (runOps c ops).size ≤ c.size + countPuts ops := by
  induction ops generalizing c with
  | nil => simp [runOps, countPuts]
  | cons op ops ih =>
    cases op with
    | put k v =>
      have h1 : (runOps (c.put k v) ops).size ≤ (c.put k v).size + countPuts ops := ih _
      have h2 : (c.put k v).size ≤ c.size + 1 :=
        dictInsert_length_le c.cache k v
      simp only [runOps, applyOp, countPuts]
      omega
    | get k =>
      simpa [runOps, applyOp, countPuts] using ih c

theorem runOps_putAll_get (kvs : List (String × String)) (c : LRUCache)
    (k v : String) (hnd : (kvs.map Prod.fst).Nodup) (hmem : (k, v) ∈ kvs) :
    (runOps c (kvs.map fun p => CacheOp.put p.1 p.2)).get k = some v := by
  induction kvs generalizing c with
  | nil => simp at hmem
  | cons p rest ih =>
    obtain ⟨k0, v0⟩ := p
    simp only [List.map_cons, List.nodup_cons] at hnd
    rcases List.mem_cons.mp hmem with heq | hrest
    · obtain ⟨rfl, rfl⟩ := Prod.mk.injEq .. ▸ heq
      have hnot : k ∉ putKeys (rest.map fun p => CacheOp.put p.1 p.2) := by
        intro hk
        apply hnd.1
        clear ih hmem hnd
        induction rest with
        | nil => simp [putKeys] at hk
        | cons q qs ihq =>
          simp only [List.map_cons, putKeys, List.mem_cons] at hk ⊢
          rcases hk with h | h
          · exact Or.inl h
          · exact Or.inr (ihq h)
      simp only [List.map_cons, runOps, applyOp]
      rw [runOps_get_of_notPutKey _ _ _ hnot]
      simp [LRUCache.put, LRUCache.get, dictGet_insert_self]
    · simp only [List.map_cons, runOps, applyOp]
      exact ih _ hnd.2 hrest

/-! Claims about the cache component. -/

/-- Claim C1, counterexample: with capacity 1, two puts of distinct keys
leave `size() = 2`, which exceeds the configured capacity — Stage 1
records the capacity but never enforces it. -/
theorem size_can_exceed_capacity :
    ¬(((((LRUCache.init 1).put "a" "1").put "b" "2").size : Int) ≤
      ((((LRUCache.init 1).put "a" "1").put "b" "2").capacity)) := by decide

/-- Claim C1 (amended): for every sequence of put and get operations
performed after `init(capacity)`, `size()` never exceeds the number of
put operations performed; the capacity itself is not enforced. -/
theorem size_le_countPuts (cap : Int) (ops : List CacheOp) :
    (runOps (LRUCache.init cap) ops).size ≤ countPuts ops := by
  simpa [LRUCache.init, LRUCache.size] using runOps_size_le ops (LRUCache.init cap)

/-- Claim C2, counterexample: with capacity `N = 1` and the two distinct
keys `a`, `b` put in order, `get(a)` still hits (returns the stored
value) instead of reporting absent — no eviction ever happens. -/
theorem no_eviction_first_key_survives :
    (((LRUCache.init 1).put "a" "va").put "b" "vb").get "a" = some "va" := by decide

/-- Claim C2 (amended): for every capacity `N ≥ 1`, if `N + 1` (indeed,
any number of) distinct keys are put in order with no intervening gets,
every one of them — including the first — still hits afterwards with
its stored value; nothing is evicted. -/
theorem putAll_every_key_hits (cap : Int) (kvs : List (String × String))
    (k v : String) (hnd : (kvs.map Prod.fst).Nodup) (hmem : (k, v) ∈ kvs) :
    (runOps (LRUCache.init cap) (kvs.map fun p => CacheOp.put p.1 p.2)).get k
      = some v :=
  runOps_putAll_get kvs (LRUCache.init cap) k v hnd hmem

/-- Witness for `putAll_every_key_hits` at capacity 1 with keys
`a`, `b`: even the first key `a` still hits. -/
theorem putAll_every_key_hits_witness :
    (runOps (LRUCache.init 1)
      ([("a", "1"), ("b", "2")].map fun p => CacheOp.put p.1 p.2)).get "a"
      = some "1" :=
  putAll_every_key_hits 1 [("a", "1"), ("b", "2")] "a" "1" (by decide) (by decide)

/-- Claim C3, counterexample: with capacity 2, after
`put(a), put(b), get(a), put(c)` the key `b` is NOT evicted — it is
still present with its value, because `get` performs no promotion and
`put` performs no eviction in this stage. -/
theorem promotion_sequence_retains_b :
    (runOps (LRUCache.init 2)
      [CacheOp.put "a" "1", CacheOp.put "b" "2",
       CacheOp.get "a", CacheOp.put "c" "3"]).get "b" = some "2" := by decide

/-- Claim C3 (amended): a `get` leaves the cache state completely
unchanged (there is no promotion machinery), and with capacity 2 the
sequence `put(a), put(b), get(a), put(c)` evicts nothing: all three
keys `a`, `b`, `c` are present afterwards. -/
theorem get_is_pure_and_nothing_evicted :
    (∀ (c : LRUCache) (k : String), applyOp c (CacheOp.get k) = c) ∧
    ((runOps (LRUCache.init 2)
        [CacheOp.put "a" "1", CacheOp.put "b" "2",
         CacheOp.get "a", CacheOp.put "c" "3"]).get "a" = some "1" ∧
     (runOps (LRUCache.init 2)
        [CacheOp.put "a" "1", CacheOp.put "b" "2",
         CacheOp.get "a", CacheOp.put "c" "3"]).get "b" = some "2" ∧
     (runOps (LRUCache.init 2)
        [CacheOp.put "a" "1", CacheOp.put "b" "2",
         CacheOp.get "a", CacheOp.put "c" "3"]).get "c" = some "3") :=
  ⟨fun _ _ => rfl, by decide⟩

/-- Claim C4: for every cache state, key and value, immediately after
`put(k, v)` a `get(k)` returns `v`. -/
theorem get_after_put (c : LRUCache) (k v : String) :
    (c.put k v).get k = some v := by
  simp [LRUCache.put, LRUCache.get, dictGet_insert_self]

/-- Claim C5: a key never put since initialization reports absent on
`get`, and appending such a miss to the operation sequence leaves the
resulting cache state (entries and their order) exactly unchanged. -/
theorem get_never_put_is_none_and_pure (cap : Int) (ops : List CacheOp)
    (k : String) (h : k ∉ putKeys ops) :
    (runOps (LRUCache.init cap) ops).get k = none ∧
    runOps (LRUCache.init cap) (ops ++ [CacheOp.get k])
      = runOps (LRUCache.init cap) ops := by
  constructor
  · rw [runOps_get_of_notPutKey _ _ _ h]
    simp [LRUCache.init, LRUCache.get, dictGet]
  · rw [runOps_append]
    rfl

/-- Witness for `get_never_put_is_none_and_pure`: key `b` was never put. -/
theorem get_never_put_is_none_and_pure_witness :
    (runOps (LRUCache.init 2) [CacheOp.put "a" "1", CacheOp.get "b"]).get "b"
      = none ∧
    runOps (LRUCache.init 2)
        ([CacheOp.put "a" "1", CacheOp.get "b"] ++ [CacheOp.get "b"])
      = runOps (LRUCache.init 2) [CacheOp.put "a" "1", CacheOp.get "b"] :=
  get_never_put_is_none_and_pure 2 [CacheOp.put "a" "1", CacheOp.get "b"] "b"
    (by decide)

/-- Claim C6: overwriting a key that is already present stores the new
value and leaves `size()` unchanged — the overwrite is not a new entry. -/
theorem put_overwrite_keeps_size (c : LRUCache) (k v1 v2 : String)
    (h : c.get k = some v1) :
    (c.put k v2).get k = some v2 ∧ (c.put k v2).size = c.size := by
  constructor
  · simp [LRUCache.put, LRUCache.get, dictGet_insert_self]
  · simp only [LRUCache.get] at h
    simpa [LRUCache.put, LRUCache.size] using
      dictInsert_length_of_get c.cache k v2 v1 h

/-- Witness for `put_overwrite_keeps_size`: overwrite key `a`. -/
theorem put_overwrite_keeps_size_witness :
    (((LRUCache.init 3).put "a" "1").put "a" "2").get "a" = some "2" ∧
    (((LRUCache.init 3).put "a" "1").put "a" "2").size
      = ((LRUCache.init 3).put "a" "1").size :=
  put_overwrite_keeps_size ((LRUCache.init 3).put "a" "1") "a" "1" "2"
    (by decide)

/-! Lemmas about the embedded Python string primitives. -/

theorem string_eq_of_data (s t : String) (h : s.data = t.data) : s = t := by
  cases s; cases t; exact congrArg String.mk h

theorem headD_append_left (l l2 : List Char) (d : Char) (h : l ≠ []) :
    (l ++ l2).headD d = l.headD d := by
  cases l with
  | nil => exact absurd rfl h
  | cons c cs => rfl

theorem dropSpaces_headD (l : List Char) :
    isPySpace ((dropSpaces l).headD 'x') = false := by
  induction l with
  | nil => decide
  | cons c cs ih =>
    by_cases h : isPySpace c
    · simpa [dropSpaces, h] using ih
    · simp [dropSpaces, h, eq_false_of_ne_true h]

theorem dropSpaces_eq_self (l : List Char)
    (h : isPySpace (l.headD 'x') = false) : dropSpaces l = l := by
  cases l with
  | nil => rfl
  | cons c cs => simp [dropSpaces, List.headD] at h ⊢; simp [h]

theorem dropSpaces_eq_append (l : List Char) :
    ∃ t, l = t ++ dropSpaces l := by
  induction l with
  | nil => exact ⟨[], rfl⟩
  | cons c cs ih =>
    by_cases h : isPySpace c
    · obtain ⟨t, ht⟩ := ih
      exact ⟨c :: t, by simp [dropSpaces, h]; exact ht⟩
    · exact ⟨[], by simp [dropSpaces, h]⟩

theorem stripList_headD (w : List Char) :
    isPySpace ((stripList w).headD 'x') = false := by
  unfold stripList
  obtain ⟨t, ht⟩ := dropSpaces_eq_append (dropSpaces w).reverse
  by_cases hv : (dropSpaces (dropSpaces w).reverse).reverse = []
  · rw [hv]; decide
  · have hrev : (dropSpaces w).reverse
        = t ++ dropSpaces (dropSpaces w).reverse := ht
    have hw : dropSpaces w
        = (dropSpaces (dropSpaces w).reverse).reverse ++ t.reverse := by
      have := congrArg List.reverse hrev
      simpa using this
    have := dropSpaces_headD w
    rw [hw, headD_append_left _ _ _ hv] at this
    exact this

theorem stripList_eq_self (l : List Char)
    (h1 : isPySpace (l.headD 'x') = false)
    (h2 : isPySpace (l.reverse.headD 'x') = false) : stripList l = l := by
  unfold stripList
  rw [dropSpaces_eq_self l h1, dropSpaces_eq_self l.reverse h2,
    List.reverse_reverse]

theorem dropSpaces_stripList (w : List Char) :
    dropSpaces (stripList w) = stripList w :=
  dropSpaces_eq_self _ (stripList_headD w)

theorem pySplitAux_nil (n : Nat) : pySplitAux n [] = [] := by
  cases n <;> rfl

theorem pySplitAux_space (n : Nat) (s : Char) (r : List Char)
    (hs : isPySpace s = true) : pySplitAux n (s :: r) = pySplitAux n r := by
  have hd : dropSpaces (s :: r) = dropSpaces r := by simp [dropSpaces, hs]
  cases n <;> simp only [pySplitAux, hd]

theorem takeNonSpace_all (t : List Char)
    (h : ∀ c ∈ t, isPySpace c = false) : takeNonSpace t = (t, []) := by
  induction t with
  | nil => rfl
  | cons c cs ih =>
    have hc : isPySpace c = false := h c (by simp)
    simp [takeNonSpace, hc, ih fun x hx => h x (by simp [hx])]

theorem takeNonSpace_append_space (t : List Char) (s : Char) (r : List Char)
    (h : ∀ c ∈ t, isPySpace c = false) (hs : isPySpace s = true) :
    takeNonSpace (t ++ s :: r) = (t, s :: r) := by
  induction t with
  | nil => simp [takeNonSpace, hs]
  | cons c cs ih =>
    have hc : isPySpace c = false := h c (by simp)
    simp [takeNonSpace, hc, ih fun x hx => h x (by simp [hx])]

theorem pySplitAux_token_space (n : Nat) (t : List Char) (s : Char)
    (r : List Char) (ht : t ≠ []) (hall : ∀ c ∈ t, isPySpace c = false)
    (hs : isPySpace s = true) :
    pySplitAux (n + 1) (t ++ s :: r) = t :: pySplitAux n (s :: r) := by
  obtain ⟨c, t', rfl⟩ := List.exists_cons_of_ne_nil ht
  have hc : isPySpace c = false := hall c (by simp)
  have hd : dropSpaces (c :: (t' ++ s :: r)) = c :: (t' ++ s :: r) := by
    simp [dropSpaces, hc]
  have htk : takeNonSpace (c :: (t' ++ s :: r)) = (c :: t', s :: r) := by
    have : (c :: t') ++ s :: r = c :: (t' ++ s :: r) := rfl
    rw [← this]
    exact takeNonSpace_append_space _ _ _ hall hs
  simp only [List.cons_append, pySplitAux, hd, htk]

theorem pySplitAux_token_end (n : Nat) (t : List Char) (ht : t ≠ [])
    (hall : ∀ c ∈ t, isPySpace c = false) :
    pySplitAux (n + 1) t = [t] := by
  obtain ⟨c, t', rfl⟩ := List.exists_cons_of_ne_nil ht
  have hc : isPySpace c = false := hall c (by simp)
  have hd : dropSpaces (c :: t') = c :: t' := by simp [dropSpaces, hc]
  have htk : takeNonSpace (c :: t') = (c :: t', []) :=
    takeNonSpace_all _ hall
  simp only [pySplitAux, hd, htk, pySplitAux_nil]

theorem pySplitAux_zero_nonspace (r : List Char) (hr : r ≠ [])
    (hh : isPySpace (r.headD 'x') = false) : pySplitAux 0 r = [r] := by
  obtain ⟨c, r', rfl⟩ := List.exists_cons_of_ne_nil hr
  have hc : isPySpace c = false := by simpa [List.headD] using hh
  have hd : dropSpaces (c :: r') = c :: r' := by simp [dropSpaces, hc]
  simp only [pySplitAux, hd]

theorem pySplitAux_ne_nil (n : Nat) (cs : List Char)
    (h : dropSpaces cs ≠ []) : pySplitAux n cs ≠ [] := by
  cases n with
  | zero =>
    simp only [pySplitAux]
    cases hd : dropSpaces cs with
    | nil => exact absurd hd h
    | cons c cs' => simp
  | succ n =>
    simp only [pySplitAux]
    cases hd : dropSpaces cs with
    | nil => exact absurd hd h
    | cons c cs' => simp

theorem pySplitMax2_pyStrip_ne_nil (s : String) (h : pyStrip s ≠ "") :
    pySplitMax2 (pyStrip s) ≠ [] := by
  have hdata : stripList s.data ≠ [] := by
    intro h0
    exact h (string_eq_of_data _ _ (by simpa [pyStrip] using h0))
  have : dropSpaces (stripList s.data) ≠ [] := by
    rw [dropSpaces_stripList]; exact hdata
  have hsplit : pySplitAux 2 (stripList s.data) ≠ [] :=
    pySplitAux_ne_nil 2 _ this
  simpa [pySplitMax2, pyStrip] using hsplit

/-! Lemmas about the command dispatcher and the stdin loop. -/

theorem pySplitMax2_empty : pySplitMax2 "" = [] := rfl

theorem dispatch_unknown (st : Option LRUCache) (tok : String)
    (rest : List String) (h : tok ≠ "INIT") (hP : tok ≠ "PUT")
    (hG : tok ≠ "GET") (hS : tok ≠ "SIZE") :
    dispatch st (tok :: rest)
      = some (st, ["ERROR: Unknown command: " ++ tok]) := by
  simp only [dispatch]
  rw [if_neg h, if_neg hP, if_neg hG, if_neg hS]

theorem dispatch_none_of_ne_init (tok : String) (rest : List String)
    (h : tok ≠ "INIT") :
    ∃ out, dispatch none (tok :: rest) = some (none, out) := by
  by_cases hP : tok = "PUT"
  · subst hP
    exact ⟨_, rfl⟩
  by_cases hG : tok = "GET"
  · subst hG
    exact ⟨_, rfl⟩
  by_cases hS : tok = "SIZE"
  · subst hS
    exact ⟨_, rfl⟩
  exact ⟨_, dispatch_unknown none tok rest h hP hG hS⟩

theorem processLine_none_of_ne_init (l : String)
    (h : firstToken l ≠ some "INIT") :
    ∃ out, processLine none l = some (none, out) := by
  by_cases hs : pyStrip l = ""
  · exact ⟨[], by simp [processLine, hs]⟩
  · obtain ⟨tok, rest, hp⟩ :=
      List.exists_cons_of_ne_nil (pySplitMax2_pyStrip_ne_nil l hs)
    have htok : tok ≠ "INIT" := by
      intro heq
      apply h
      unfold firstToken
      rw [hp, heq]
      rfl
    obtain ⟨out, hout⟩ := dispatch_none_of_ne_init tok rest htok
    refine ⟨out, ?_⟩
    simp only [processLine, if_neg hs]
    rw [hp, hout]

theorem runLines_none_append (pre rest : List String)
    (h : ∀ l ∈ pre, firstToken l ≠ some "INIT") :
    runLines none (pre ++ rest)
      = runLines none pre ++ runLines none rest := by
  induction pre with
  | nil => simp [runLines]
  | cons l ls ih =>
    obtain ⟨out, hout⟩ := processLine_none_of_ne_init l (h l (by simp))
    simp only [List.cons_append, runLines, hout]
    show out ++ runLines none (ls ++ rest)
      = out ++ runLines none ls ++ runLines none rest
    rw [ih fun x hx => h x (by simp [hx]), List.append_assoc]

theorem dispatch_uninit_cmd (tok : String) (rest : List String)
    (h : tok = "PUT" ∨ tok = "GET" ∨ tok = "SIZE") :
    dispatch none (tok :: rest)
      = some (none, ["ERROR: Cache not initialized"]) := by
  rcases h with rfl | rfl | rfl <;> rfl

/-- Claim C8: any `GET`, `PUT` or `SIZE` command issued before any
`INIT` is answered with `ERROR: Cache not initialized`, and the program
keeps processing the following lines of the session. -/
theorem uninit_command_errors_and_continues (pre post : List String)
    (cmd : String) (hpre : ∀ l ∈ pre, firstToken l ≠ some "INIT")
    (hcmd : firstToken cmd = some "PUT" ∨ firstToken cmd = some "GET" ∨
      firstToken cmd = some "SIZE") :
    runLines none (pre ++ cmd :: post)
      = runLines none pre
        ++ "ERROR: Cache not initialized" :: runLines none post := by
  have htok : ∃ tok rest, pySplitMax2 (pyStrip cmd) = tok :: rest ∧
      (tok = "PUT" ∨ tok = "GET" ∨ tok = "SIZE") := by
    cases hp : pySplitMax2 (pyStrip cmd) with
    | nil =>
      unfold firstToken at hcmd
      rw [hp] at hcmd
      rcases hcmd with h | h | h <;> simp at h
    | cons a t =>
      refine ⟨a, t, rfl, ?_⟩
      unfold firstToken at hcmd
      rw [hp] at hcmd
      rcases hcmd with h | h | h
      · exact Or.inl (by simpa using h)
      · exact Or.inr (Or.inl (by simpa using h))
      · exact Or.inr (Or.inr (by simpa using h))
  obtain ⟨tok, rest, hp, hcase⟩ := htok
  have hs : pyStrip cmd ≠ "" := by
    intro h0
    rw [h0, pySplitMax2_empty] at hp
    exact List.noConfusion hp
  have hproc : processLine none cmd
      = some (none, ["ERROR: Cache not initialized"]) := by
    simp only [processLine, if_neg hs]
    rw [hp]
    exact dispatch_uninit_cmd tok rest hcase
  rw [runLines_none_append pre (cmd :: post) hpre]
  simp only [runLines, hproc]
  rfl

/-- Witness for `uninit_command_errors_and_continues`: a lone `GET x`
before `INIT`, followed by further lines that are still processed. -/
theorem uninit_command_errors_and_continues_witness :
    runLines none (([] : List String) ++ "GET x" :: ["INIT 2", "SIZE"])
      = runLines none []
        ++ "ERROR: Cache not initialized" :: runLines none ["INIT 2", "SIZE"] :=
  uninit_command_errors_and_continues [] ["INIT 2", "SIZE"] "GET x"
    (by simp) (by decide)

/-- Claim C9, counterexample: the line `INIT x` (an `INIT` with an
invalid capacity argument) is fatal — `int("x")` raises an uncaught
`ValueError`, so no `ERROR: ...` line is emitted and the following
`SIZE` line is never processed (alone, it would have produced a
response, as the second conjunct shows). -/
theorem bad_init_is_fatal :
    runLines none ["INIT x", "SIZE"] = [] ∧
    runLines none ["SIZE"] = ["ERROR: Cache not initialized"] := by
  constructor <;> rfl

theorem dispatch_any_of_ne_init (st : Option LRUCache) (tok : String)
    (rest : List String) (h : tok ≠ "INIT") :
    ∃ st' out, dispatch st (tok :: rest) = some (st', out) ∧
      (tok ≠ "PUT" → tok ≠ "GET" → tok ≠ "SIZE" →
        out = ["ERROR: Unknown command: " ++ tok]) := by
  by_cases hP : tok = "PUT"
  · subst hP
    cases st with
    | none => exact ⟨none, _, rfl, fun hh _ _ => absurd rfl hh⟩
    | some c =>
      cases rest with
      | nil => exact ⟨some c, _, rfl, fun hh _ _ => absurd rfl hh⟩
      | cons k r2 =>
        cases r2 with
        | nil => exact ⟨some c, _, rfl, fun hh _ _ => absurd rfl hh⟩
        | cons v r3 =>
          exact ⟨some (c.put k v), _, rfl, fun hh _ _ => absurd rfl hh⟩
  by_cases hG : tok = "GET"
  · subst hG
    cases st with
    | none => exact ⟨none, _, rfl, fun _ hh _ => absurd rfl hh⟩
    | some c =>
      cases rest with
      | nil => exact ⟨some c, _, rfl, fun _ hh _ => absurd rfl hh⟩
      | cons k r2 => exact ⟨some c, _, rfl, fun _ hh _ => absurd rfl hh⟩
  by_cases hS : tok = "SIZE"
  · subst hS
    cases st with
    | none => exact ⟨none, _, rfl, fun _ _ hh => absurd rfl hh⟩
    | some c => exact ⟨some c, _, rfl, fun _ _ hh => absurd rfl hh⟩
  exact ⟨st, _, dispatch_unknown st tok rest h hP hG hS, fun _ _ _ => rfl⟩

/-- Claim C9 (amended): every line whose command token is not `INIT` is
non-fatal — it produces a response, and the program keeps reading and
processing the following lines; moreover if its token is an unknown
command the response is the corresponding `ERROR: ...` line. An `INIT`
with a missing or non-integer capacity, in contrast, terminates the
program (see the counterexample). -/
theorem non_init_line_is_not_fatal (st : Option LRUCache) (line : String)
    (ls : List String) (h : firstToken line ≠ some "INIT") :
    ∃ st' out, processLine st line = some (st', out) ∧
      runLines st (line :: ls) = out ++ runLines st' ls ∧
      (∀ tok, firstToken line = some tok →
        tok ≠ "PUT" → tok ≠ "GET" → tok ≠ "SIZE" →
        out = ["ERROR: Unknown command: " ++ tok]) := by
  by_cases hs : pyStrip line = ""
  · refine ⟨st, [], by simp [processLine, hs], ?_, ?_⟩
    · simp [runLines, processLine, hs]
    · intro tok htok
      exfalso
      unfold firstToken at htok
      rw [hs, pySplitMax2_empty] at htok
      exact Option.noConfusion htok
  · obtain ⟨tok, rest, hp⟩ :=
      List.exists_cons_of_ne_nil (pySplitMax2_pyStrip_ne_nil line hs)
    have htok : tok ≠ "INIT" := by
      intro heq
      apply h
      unfold firstToken
      rw [hp, heq]
      rfl
    obtain ⟨st', out, hd, hunk⟩ := dispatch_any_of_ne_init st tok rest htok
    have hproc : processLine st line = some (st', out) := by
      simp only [processLine, if_neg hs]
      rw [hp, hd]
    refine ⟨st', out, hproc, by simp [runLines, hproc], ?_⟩
    intro tok' htok' h1 h2 h3
    have heq : tok = tok' := by
      unfold firstToken at htok'
      rw [hp] at htok'
      simpa using htok'
    subst heq
    exact hunk h1 h2 h3

/-- Witness for `non_init_line_is_not_fatal`: the unknown command
`FLUSH` gets an error response and the next line is still processed. -/
theorem non_init_line_is_not_fatal_witness :
    ∃ st' out, processLine none "FLUSH" = some (st', out) ∧
      runLines none ("FLUSH" :: ["SIZE"]) = out ++ runLines st' ["SIZE"] ∧
      (∀ tok, firstToken "FLUSH" = some tok →
        tok ≠ "PUT" → tok ≠ "GET" → tok ≠ "SIZE" →
        out = ["ERROR: Unknown command: " ++ tok]) :=
  non_init_line_is_not_fatal none "FLUSH" ["SIZE"] (by decide)

theorem dispatch_init_bad (st : Option LRUCache) (capStr : String)
    (r : List String) (hp : pyParseInt capStr = none) :
    dispatch st ("INIT" :: capStr :: r) = none := by
  show (match pyParseInt capStr with
    | none => none
    | some capacity => some (some (LRUCache.init capacity), ["OK"]))
    = (none : Option (Option LRUCache × List String))
  rw [hp]

theorem dispatch_init_ok (st : Option LRUCache) (capStr : String)
    (r : List String) (n : Int) (hp : pyParseInt capStr = some n) :
    dispatch st ("INIT" :: capStr :: r)
      = some (some (LRUCache.init n), ["OK"]) := by
  show (match pyParseInt capStr with
    | none => none
    | some capacity => some (some (LRUCache.init capacity), ["OK"])) = _
  rw [hp]

theorem dispatch_get_hit (a : LRUCache) (k : String) (r : List String) :
    dispatch (some a) ("GET" :: k :: r)
      = some (some a, [match a.get k with | some v => v | none => "NULL"]) :=
  rfl

theorem dispatch_capacity_oblivious (st1 st2 : Option LRUCache)
    (h : (st1 = none ∧ st2 = none) ∨
      (∃ a b, st1 = some a ∧ st2 = some b ∧ a.cache = b.cache))
    (parts : List String) :
    (dispatch st1 parts = none ∧ dispatch st2 parts = none) ∨
    (∃ st1' st2' out,
      dispatch st1 parts = some (st1', out) ∧
      dispatch st2 parts = some (st2', out) ∧
      ((st1' = none ∧ st2' = none) ∨
        (∃ a b, st1' = some a ∧ st2' = some b ∧ a.cache = b.cache))) := by
  cases parts with
  | nil => exact Or.inl ⟨rfl, rfl⟩
  | cons tok rest =>
    by_cases hI : tok = "INIT"
    · subst hI
      cases rest with
      | nil => exact Or.inl ⟨rfl, rfl⟩
      | cons capStr r =>
        cases hp : pyParseInt capStr with
        | none =>
          exact Or.inl ⟨dispatch_init_bad st1 capStr r hp,
            dispatch_init_bad st2 capStr r hp⟩
        | some n =>
          exact Or.inr ⟨some (LRUCache.init n), some (LRUCache.init n),
            ["OK"], dispatch_init_ok st1 capStr r n hp,
            dispatch_init_ok st2 capStr r n hp,
            Or.inr ⟨_, _, rfl, rfl, rfl⟩⟩
    rcases h with ⟨rfl, rfl⟩ | ⟨a, b, rfl, rfl, hc⟩
    · by_cases hP : tok = "PUT"
      · subst hP
        exact Or.inr ⟨none, none, _, rfl, rfl, Or.inl ⟨rfl, rfl⟩⟩
      by_cases hG : tok = "GET"
      · subst hG
        exact Or.inr ⟨none, none, _, rfl, rfl, Or.inl ⟨rfl, rfl⟩⟩
      by_cases hS : tok = "SIZE"
      · subst hS
        exact Or.inr ⟨none, none, _, rfl, rfl, Or.inl ⟨rfl, rfl⟩⟩
      exact Or.inr ⟨none, none, _,
        dispatch_unknown none tok rest hI hP hG hS,
        dispatch_unknown none tok rest hI hP hG hS, Or.inl ⟨rfl, rfl⟩⟩
    · by_cases hP : tok = "PUT"
      · subst hP
        cases rest with
        | nil =>
          exact Or.inr ⟨some a, some b, _, rfl, rfl,
            Or.inr ⟨a, b, rfl, rfl, hc⟩⟩
        | cons k r2 =>
          cases r2 with
          | nil =>
            exact Or.inr ⟨some a, some b, _, rfl, rfl,
              Or.inr ⟨a, b, rfl, rfl, hc⟩⟩
          | cons v r3 =>
            exact Or.inr ⟨some (a.put k v), some (b.put k v), ["OK"],
              rfl, rfl,
              Or.inr ⟨a.put k v, b.put k v, rfl, rfl, by
                simp [LRUCache.put, hc]⟩⟩
      by_cases hG : tok = "GET"
      · subst hG
        cases rest with
        | nil =>
          exact Or.inr ⟨some a, some b, _, rfl, rfl,
            Or.inr ⟨a, b, rfl, rfl, hc⟩⟩
        | cons k r2 =>
          have hv : a.get k = b.get k := by simp [LRUCache.get, hc]
          refine Or.inr ⟨some a, some b,
            [match b.get k with | some v => v | none => "NULL"],
            ?_, dispatch_get_hit b k r2, Or.inr ⟨a, b, rfl, rfl, hc⟩⟩
          rw [dispatch_get_hit a k r2, hv]
      by_cases hS : tok = "SIZE"
      · subst hS
        have hv : a.size = b.size := by simp [LRUCache.size, hc]
        refine Or.inr ⟨some a, some b, [toString b.size], ?_, rfl,
          Or.inr ⟨a, b, rfl, rfl, hc⟩⟩
        show some (some a, [toString a.size]) = _
        rw [hv]
      exact Or.inr ⟨some a, some b, _,
        dispatch_unknown (some a) tok rest hI hP hG hS,
        dispatch_unknown (some b) tok rest hI hP hG hS,
        Or.inr ⟨a, b, rfl, rfl, hc⟩⟩

theorem processLine_capacity_oblivious (st1 st2 : Option LRUCache)
    (h : (st1 = none ∧ st2 = none) ∨
      (∃ a b, st1 = some a ∧ st2 = some b ∧ a.cache = b.cache))
    (line : String) :
    (processLine st1 line = none ∧ processLine st2 line = none) ∨
    (∃ st1' st2' out,
      processLine st1 line = some (st1', out) ∧
      processLine st2 line = some (st2', out) ∧
      ((st1' = none ∧ st2' = none) ∨
        (∃ a b, st1' = some a ∧ st2' = some b ∧ a.cache = b.cache))) := by
  by_cases hs : pyStrip line = ""
  · exact Or.inr ⟨st1, st2, [], by simp [processLine, hs],
      by simp [processLine, hs], h⟩
  · have hstep := dispatch_capacity_oblivious st1 st2 h
      (pySplitMax2 (pyStrip line))
    rcases hstep with ⟨h1, h2⟩ | ⟨st1', st2', out, h1, h2, hrel⟩
    · exact Or.inl ⟨by simp [processLine, hs, h1],
        by simp [processLine, hs, h2]⟩
    · exact Or.inr ⟨st1', st2', out, by simp [processLine, hs, h1],
        by simp [processLine, hs, h2], hrel⟩

theorem runLines_capacity_oblivious (lines : List String) :
    ∀ (st1 st2 : Option LRUCache),
      (st1 = none ∧ st2 = none) ∨
        (∃ a b, st1 = some a ∧ st2 = some b ∧ a.cache = b.cache) →
      runLines st1 lines = runLines st2 lines := by
  induction lines with
  | nil =>
    intro st1 st2 _
    rfl
  | cons l ls ih =>
    intro st1 st2 h
    rcases processLine_capacity_oblivious st1 st2 h l with
      ⟨h1, h2⟩ | ⟨st1', st2', out, h1, h2, hrel⟩
    · simp [runLines, h1, h2]
    · simp [runLines, h1, h2, ih st1' st2' hrel]

/-- Claim C10: for any two capacities and any sequence of `PUT`, `GET`
and `SIZE` commands issued after initialization, the responses are
identical — the stored capacity is never read by get, put or size. -/
theorem capacity_noninterference (c1 c2 : Int) (lines : List String)
    (_hcmds : ∀ l ∈ lines, firstToken l = some "PUT" ∨
      firstToken l = some "GET" ∨ firstToken l = some "SIZE") :
    runLines (some (LRUCache.init c1)) lines
      = runLines (some (LRUCache.init c2)) lines :=
  runLines_capacity_oblivious lines _ _
    (Or.inr ⟨LRUCache.init c1, LRUCache.init c2, rfl, rfl, rfl⟩)

/-- Witness for `capacity_noninterference`: capacities 1 and 100 give
the same responses to a post-initialization command sequence. -/
theorem capacity_noninterference_witness :
    runLines (some (LRUCache.init 1)) ["PUT a 1", "PUT b 2", "GET a", "SIZE"]
      = runLines (some (LRUCache.init 100))
          ["PUT a 1", "PUT b 2", "GET a", "SIZE"] :=
  capacity_noninterference 1 100 ["PUT a 1", "PUT b 2", "GET a", "SIZE"]
    (by decide)

theorem headD_reverse_append (u v : List Char) (hv : v ≠ []) (d : Char) :
    ((u ++ v).reverse).headD d = (v.reverse).headD d := by
  rw [List.reverse_append]
  exact headD_append_left _ _ _ (by simpa using hv)

theorem pyStrip_eq_self (s : String)
    (h1 : isPySpace (s.data.headD 'x') = false)
    (h2 : isPySpace (s.data.reverse.headD 'x') = false) : pyStrip s = s :=
  string_eq_of_data _ _ (stripList_eq_self s.data h1 h2)

theorem string_ne_empty_of_data (s : String) (h : s.data ≠ []) : s ≠ "" :=
  fun he => h (by rw [he])

/-- Claim C7: a `PUT <key> <value>` line whose value is the remainder of
the line (it may contain inner spaces; the key is a whitespace-free
token and the value does not begin or end with whitespace, since the
line is stripped) stores the full remainder, and a subsequent
`GET <key>` echoes the complete multi-word value. -/
theorem put_value_with_spaces_roundtrip (c : LRUCache) (k val : String)
    (hk1 : k.data ≠ []) (hk2 : ∀ ch ∈ k.data, isPySpace ch = false)
    (hv1 : val.data ≠ []) (hv2 : isPySpace (val.data.headD 'x') = false)
    (hv3 : isPySpace (val.data.reverse.headD 'x') = false) :
    runLines (some c) ["PUT " ++ k ++ " " ++ val, "GET " ++ k]
      = ["OK", val] := by
  have hdata : ("PUT " ++ k ++ " " ++ val).data
      = 'P' :: 'U' :: 'T' :: ' ' :: (k.data ++ ' ' :: val.data) := by
    simp [String.data_append]
  have hdata2 : ("GET " ++ k).data = 'G' :: 'E' :: 'T' :: ' ' :: k.data := by
    simp [String.data_append]
  have hklast : isPySpace (k.data.reverse.headD 'x') = false := by
    have hne : k.data.reverse ≠ [] := by simpa using hk1
    obtain ⟨c0, l0, hrev⟩ := List.exists_cons_of_ne_nil hne
    have hmem : c0 ∈ k.data := by
      rw [← List.mem_reverse, hrev]
      simp
    rw [hrev]
    exact hk2 c0 hmem
  -- the stripped PUT line is itself
  have hstrip1 : pyStrip ("PUT " ++ k ++ " " ++ val) = "PUT " ++ k ++ " " ++ val := by
    refine pyStrip_eq_self _ ?_ ?_
    · rw [hdata]
      rfl
    · rw [hdata,
        show ('P' :: 'U' :: 'T' :: ' ' :: (k.data ++ ' ' :: val.data))
          = ('P' :: 'U' :: 'T' :: ' ' :: (k.data ++ [' '])) ++ val.data
          from by simp,
        headD_reverse_append _ _ hv1]
      exact hv3
  -- the stripped GET line is itself
  have hstrip2 : pyStrip ("GET " ++ k) = "GET " ++ k := by
    refine pyStrip_eq_self _ ?_ ?_
    · rw [hdata2]
      rfl
    · rw [hdata2,
        show ('G' :: 'E' :: 'T' :: ' ' :: k.data)
          = ['G', 'E', 'T', ' '] ++ k.data from rfl,
        headD_reverse_append _ _ hk1]
      exact hklast
  have hne1 : ("PUT " ++ k ++ " " ++ val) ≠ "" :=
    string_ne_empty_of_data _ (by rw [hdata]; exact List.cons_ne_nil _ _)
  have hne2 : ("GET " ++ k) ≠ "" :=
    string_ne_empty_of_data _ (by rw [hdata2]; exact List.cons_ne_nil _ _)
  -- splitting the PUT line
  have hsplitAux1 : pySplitAux 2 ('P' :: 'U' :: 'T' :: ' ' :: (k.data ++ ' ' :: val.data))
      = [['P', 'U', 'T'], k.data, val.data] := by
    have e2 := pySplitAux_space 1 ' ' (k.data ++ ' ' :: val.data) (by decide)
    have e3 := pySplitAux_token_space 0 k.data ' ' val.data hk1 hk2 (by decide)
    have e4 := pySplitAux_space 0 ' ' val.data (by decide)
    have e5 := pySplitAux_zero_nonspace val.data hv1 hv2
    calc pySplitAux 2 ('P' :: 'U' :: 'T' :: ' ' :: (k.data ++ ' ' :: val.data))
        = ['P', 'U', 'T'] :: pySplitAux 1 (' ' :: (k.data ++ ' ' :: val.data)) :=
          pySplitAux_token_space 1 ['P', 'U', 'T'] ' '
            (k.data ++ ' ' :: val.data) (by simp) (by decide) (by decide)
      _ = ['P', 'U', 'T'] :: pySplitAux 1 (k.data ++ ' ' :: val.data) := by rw [e2]
      _ = ['P', 'U', 'T'] :: (k.data :: pySplitAux 0 (' ' :: val.data)) := by rw [e3]
      _ = ['P', 'U', 'T'] :: k.data :: pySplitAux 0 val.data := by rw [e4]
      _ = [['P', 'U', 'T'], k.data, val.data] := by rw [e5]
  have hsplit1 : pySplitMax2 ("PUT " ++ k ++ " " ++ val) = ["PUT", k, val] := by
    unfold pySplitMax2
    rw [hdata, hsplitAux1]
    rfl
  -- splitting the GET line
  have hsplitAux2 : pySplitAux 2 ('G' :: 'E' :: 'T' :: ' ' :: k.data)
      = [['G', 'E', 'T'], k.data] := by
    have e2 := pySplitAux_space 1 ' ' k.data (by decide)
    have e3 := pySplitAux_token_end 0 k.data hk1 hk2
    calc pySplitAux 2 ('G' :: 'E' :: 'T' :: ' ' :: k.data)
        = ['G', 'E', 'T'] :: pySplitAux 1 (' ' :: k.data) :=
          pySplitAux_token_space 1 ['G', 'E', 'T'] ' ' k.data
            (by simp) (by decide) (by decide)
      _ = ['G', 'E', 'T'] :: pySplitAux 1 k.data := by rw [e2]
      _ = [['G', 'E', 'T'], k.data] := by rw [e3]
  have hsplit2 : pySplitMax2 ("GET " ++ k) = ["GET", k] := by
    unfold pySplitMax2
    rw [hdata2, hsplitAux2]
    rfl
  -- the two line steps
  have hproc1 : processLine (some c) ("PUT " ++ k ++ " " ++ val)
      = some (some (c.put k val), ["OK"]) := by
    simp only [processLine, hstrip1, if_neg hne1, hsplit1]
    rfl
  have hgetval : (c.put k val).get k = some val := by
    simp [LRUCache.put, LRUCache.get, dictGet_insert_self]
  have hproc2 : processLine (some (c.put k val)) ("GET " ++ k)
      = some (some (c.put k val), [val]) := by
    simp only [processLine, hstrip2, if_neg hne2, hsplit2]
    rw [show pySplitMax2 ("GET " ++ k) = "GET" :: [k] from hsplit2] at *
    rw [dispatch_get_hit (c.put k val) k [], hgetval]
  simp only [runLines, hproc1, hproc2]
  rfl

/-- Witness for `put_value_with_spaces_roundtrip`: storing the
two-word value `hello world` under key `name` and reading it back. -/
theorem put_value_with_spaces_roundtrip_witness :
    runLines (some (LRUCache.init 10))
      ["PUT " ++ "name" ++ " " ++ "hello world", "GET " ++ "name"]
      = ["OK", "hello world"] :=
  put_value_with_spaces_roundtrip (LRUCache.init 10) "name" "hello world"
    (by decide) (by decide) (by decide) (by decide) (by decide)
